import Mathlib

/-!
# Verification of the appointment-tracking service `main_rdv.py`

Shallow embedding of the lifecycle engine of the vehicle-repair
appointment tracker (`src/main_rdv.py`) and proofs of the spec's claims.

Modelling conventions:
* Python strings are modelled as `String` for opaque values (tokens,
  secrets) and as `List Char` for the plate text that `normalize_plate`
  transforms character by character.  Python's `str.upper` and the regex
  class `\s` are Unicode-aware; we model their ASCII behaviour (every
  non-ASCII character is deleted by the final regex filter anyway).
* The SQLite table `rdv` is modelled as a `List Rdv` of rows; `fetchone`
  on `SELECT ... WHERE token=?` is `List.find?`, and `UPDATE ... WHERE
  token=?` maps over all rows with that token (the `PRIMARY KEY`
  constraint makes at most one row match in practice, but the embedding
  does not need that assumption).  `ORDER BY updated_at DESC` is a merge
  sort by the `updated_at` field, descending.
* `utc_now_iso()` produces an ISO-8601 UTC timestamp at second
  precision; chronological order coincides with the lexicographic order
  SQLite uses on those strings, so timestamps are modelled as `Nat` and
  the current time is an explicit argument `now` of each operation.
* `raise HTTPException(status_code, detail)` is modelled by returning
  `Except HTTPError α`; mutating endpoints return the (possibly
  updated) table alongside, `List Rdv × Except HTTPError α`.
* The module-level global `TECH_API_KEY = os.getenv("TECH_API_KEY", "")`
  is an explicit argument `key` of each endpoint; a missing environment
  variable is `key = ""`.  The optional `X-API-Key` header is
  `Option String` (`none` = header absent), matching FastAPI's
  `Header(default=None)`.
* `secrets.token_urlsafe(32)` is nondeterministic, so `create_rdv`
  takes the generated token as an explicit argument.
-/

/-- An HTTP error as raised by `raise HTTPException(status_code=..., detail=...)`. -/
structure HTTPError where
  status_code : Nat
  detail : String
deriving DecidableEq, Repr

/-- `HTTPException(500, "Server not configured (TECH_API_KEY missing)")` in `require_api_key`. -/
def configError : HTTPError := ⟨500, "Server not configured (TECH_API_KEY missing)"⟩

/-- `HTTPException(401, "Unauthorized")` in `require_api_key`. -/
def unauthorizedError : HTTPError := ⟨401, "Unauthorized"⟩

/-- `HTTPException(400, "status must be between 0 and 3")` in `update_rdv`. -/
def validationError : HTTPError := ⟨400, "status must be between 0 and 3"⟩

/-- `HTTPException(404, "Not found")` in `update_rdv`, `close_rdv`, `get_status`. -/
def notFoundError : HTTPError := ⟨404, "Not found"⟩

/-- `HTTPException(400, "RDV is closed")` in `update_rdv`. -/
def conflictError : HTTPError := ⟨400, "RDV is closed"⟩

/-- Source `require_api_key(x_api_key)`: rejects with 500 when the
server-side `TECH_API_KEY` is empty (falsy), else with 401 when the
supplied header does not equal the key.  In Python `x_api_key` is
`str | None` and `None != TECH_API_KEY` holds, so the comparison is
`x_api_key ≠ some key`. -/
def require_api_key (key : String) (x_api_key : Option String) : Except HTTPError Unit :=
  if key = "" then .error configError
  else if x_api_key ≠ some key then .error unauthorizedError
  else .ok ()

/-- The characters matched by the regex class `\s` (ASCII fragment):
space, tab, newline, carriage return, vertical tab, form feed. -/
def pyIsSpace (c : Char) : Bool :=
  c == ' ' || c == '\t' || c == '\n' || c == '\r' || c == '\x0b' || c == '\x0c'

/-- Python `str.upper()` restricted to ASCII: maps `a`-`z` to `A`-`Z`. -/
def pyToUpper (c : Char) : Char :=
  if 'a' ≤ c ∧ c ≤ 'z' then Char.ofNat (c.toNat - 32) else c

/-- The character class kept by `re.sub(r"[^A-Z0-9\-]", "", p)`:
uppercase ASCII letters, digits, hyphen. -/
def isAllowed (c : Char) : Bool :=
  ('A' ≤ c && c ≤ 'Z') || ('0' ≤ c && c ≤ '9') || c == '-'

/-- Python `str.strip()` (ASCII whitespace): drop leading and trailing
whitespace. -/
def pyStrip (l : List Char) : List Char :=
  ((l.dropWhile pyIsSpace).reverse.dropWhile pyIsSpace).reverse

/-- Helper for `collapseWs`: the flag records whether the previous
character was whitespace (i.e. whether we are inside a run that has
already emitted its hyphen). -/
def collapseWsAux : Bool → List Char → List Char
  | _, [] => []
  | prevWs, c :: cs =>
    if pyIsSpace c then
      (if prevWs then [] else ['-']) ++ collapseWsAux true cs
    else c :: collapseWsAux false cs

/-- `re.sub(r"\s+", "-", p)`: replace each maximal run of whitespace
with a single hyphen (see `collapseWs_cons` for the run-at-a-time
characterization). -/
def collapseWs (l : List Char) : List Char := collapseWsAux false l

/-- Source `normalize_plate(plate)`: strip, upper-case, collapse
whitespace runs to hyphens, delete everything outside `[A-Z0-9-]`. -/
def normalize_plate (plate : List Char) : List Char :=
  ((collapseWs ((pyStrip plate).map pyToUpper)).filter isAllowed)

/-- One row of the SQLite table `rdv`. -/
structure Rdv where
  token : String
  plate : List Char
  status : Int
  is_closed : Bool
  created_at : Nat
  updated_at : Nat
deriving DecidableEq, Repr

/-- Response of `POST /create`. -/
structure CreateResp where
  token : String
  plate : List Char
  status : Int
  updated_at : Nat
deriving DecidableEq, Repr

/-- Response of `POST /update`. -/
structure UpdateResp where
  ok : Bool
  token : String
  status : Int
  updated_at : Nat
deriving DecidableEq, Repr

/-- Response of `POST /close`. -/
structure CloseResp where
  ok : Bool
  token : String
  updated_at : Nat
deriving DecidableEq, Repr

/-- Response of `GET /status/{token}`. -/
structure StatusResp where
  token : String
  plate : List Char
  status : Int
  updated_at : Nat
deriving DecidableEq, Repr

/-- One element of the response of `GET /list`. -/
structure ListItem where
  token : String
  plate : List Char
  status : Int
  created_at : Nat
  updated_at : Nat
deriving DecidableEq, Repr

/-- `SELECT ... FROM rdv WHERE token=?` followed by `fetchone()`. -/
def findRdv (db : List Rdv) (token : String) : Option Rdv :=
  db.find? (fun r => r.token == token)

/-- Source `create_rdv(plate, x_api_key)`: auth gate, normalize the
plate, insert a fresh open row with `status = 0`.  The generated token
and the clock reading are explicit arguments. -/
def create_rdv (key : String) (x_api_key : Option String) (db : List Rdv)
    (plate : List Char) (token : String) (now : Nat) :
    List Rdv × Except HTTPError CreateResp :=
  match require_api_key key x_api_key with
  | .error e => (db, .error e)
  | .ok _ =>
    let plate_n := normalize_plate plate
    (db ++ [⟨token, plate_n, 0, false, now, now⟩], .ok ⟨token, plate_n, 0, now⟩)

/-- Source `update_rdv(token, status, x_api_key)`: auth gate, then range
check `status < 0 or status > 3` (400), then lookup (404 if absent),
then closed check (400 "RDV is closed"), then
`UPDATE rdv SET status=?, updated_at=? WHERE token=?`. -/
def update_rdv (key : String) (x_api_key : Option String) (db : List Rdv)
    (token : String) (status : Int) (now : Nat) :
    List Rdv × Except HTTPError UpdateResp :=
  match require_api_key key x_api_key with
  | .error e => (db, .error e)
  | .ok _ =>
    if status < 0 ∨ status > 3 then (db, .error validationError)
    else
      match findRdv db token with
      | none => (db, .error notFoundError)
      | some r =>
        if r.is_closed then (db, .error conflictError)
        else
          (db.map (fun s => if s.token == token then { s with status := status, updated_at := now } else s),
           .ok ⟨true, token, status, now⟩)

/-- Source `list_rdv(x_api_key)`: auth gate, then
`SELECT token, plate, status, created_at, updated_at FROM rdv WHERE
is_closed = 0 ORDER BY updated_at DESC`. -/
def list_rdv (key : String) (x_api_key : Option String) (db : List Rdv) :
    Except HTTPError (List ListItem) :=
  match require_api_key key x_api_key with
  | .error e => .error e
  | .ok _ =>
    .ok (((db.filter (fun r => !r.is_closed)).mergeSort
            (fun a b => decide (b.updated_at ≤ a.updated_at))).map
          (fun r => ⟨r.token, r.plate, r.status, r.created_at, r.updated_at⟩))

/-- Source `close_rdv(token, x_api_key)`: auth gate, then
`UPDATE rdv SET is_closed=1, updated_at=? WHERE token=?` is committed
and 404 is raised exactly when the row count of that update is zero.
The updated table is returned in both branches, as in the source, where
the commit precedes the row-count check (when the count is zero the
update changed nothing, so the table is unchanged there). -/
def close_rdv (key : String) (x_api_key : Option String) (db : List Rdv)
    (token : String) (now : Nat) :
    List Rdv × Except HTTPError CloseResp :=
  match require_api_key key x_api_key with
  | .error e => (db, .error e)
  | .ok _ =>
    let db2 := db.map (fun s => if s.token == token then { s with is_closed := true, updated_at := now } else s)
    let changed := (db.filter (fun s => s.token == token)).length
    if changed = 0 then (db2, .error notFoundError)
    else (db2, .ok ⟨true, token, now⟩)

/-- Source `get_status(token)`: no auth gate; lookup by token, 404 if
absent, 404 again if the row is closed, else the public projection. -/
def get_status (db : List Rdv) (token : String) : Except HTTPError StatusResp :=
  match findRdv db token with
  | none => .error notFoundError
  | some r =>
    if r.is_closed then .error notFoundError
    else .ok ⟨token, r.plate, r.status, r.updated_at⟩

example : normalize_plate "  ab cd!!".toList = "AB-CD".toList := by decide

/-! ### The spec's formulation of the normalizer

The spec describes the whitespace step as "replacing each maximal run of
whitespace with a single hyphen"; on a trimmed string that is the same
as splitting into whitespace-separated words and joining the words with
single hyphens.  `specNormalize` below is written from the spec's words
and proved equal to `normalize_plate`. -/

/-- The maximal whitespace-free words of a character list, in order. -/
def splitWs : List Char → List (List Char)
  | [] => []
  | c :: cs =>
    if pyIsSpace c then splitWs cs
    else (c :: cs.takeWhile (fun d => !pyIsSpace d)) :: splitWs (cs.dropWhile (fun d => !pyIsSpace d))
termination_by l => l.length
decreasing_by
· exact Nat.lt_succ_self _
· exact Nat.lt_succ_of_le (List.Sublist.length_le (List.dropWhile_sublist _))

/-- The spec's description of `normalize`: trim surrounding whitespace,
upper-case, replace each maximal run of whitespace with a single hyphen
(= join the whitespace-separated words with single hyphens), then delete
every character that is not an uppercase ASCII letter, a digit or a
hyphen. -/
def specNormalize (s : List Char) : List Char :=
  (List.intercalate ['-'] (splitWs ((pyStrip s).map pyToUpper))).filter isAllowed

/-! ### Equations and helper lemmas for the normalizer -/

theorem collapseWsAux_true_eq (l : List Char) :
    collapseWsAux true l = collapseWsAux false (l.dropWhile pyIsSpace) := by
  induction l with
  | nil => rfl
  | cons c cs ih =>
    cases h : pyIsSpace c with
    | true => simp [collapseWsAux, h, ih, List.dropWhile_cons_of_pos]
    | false => simp [collapseWsAux, h, List.dropWhile_cons_of_neg]

theorem collapseWs_cons (c : Char) (cs : List Char) :
    collapseWs (c :: cs) =
      if pyIsSpace c then '-' :: collapseWs (cs.dropWhile pyIsSpace)
      else c :: collapseWs cs := by
  cases h : pyIsSpace c <;>
    simp [collapseWs, collapseWsAux, h, collapseWsAux_true_eq]

theorem char_le_iff {a b : Char} : a ≤ b ↔ a.toNat ≤ b.toNat := Iff.rfl

theorem char_toNat_ofNat {n : Nat} (h : n.isValidChar) : (Char.ofNat n).toNat = n := by
  simp [Char.ofNat, h, Char.ofNatAux, Char.toNat, UInt32.toNat, BitVec.toNat_ofNatLt]

/-- No character with code point at least 45 is whitespace. -/
theorem pyIsSpace_eq_false_of_le {c : Char} (h : 45 ≤ c.toNat) : pyIsSpace c = false := by
  by_contra hws
  rw [Bool.not_eq_false] at hws
  simp only [pyIsSpace, Bool.or_eq_true, beq_iff_eq] at hws
  rcases hws with ((((rfl | rfl) | rfl) | rfl) | rfl) | rfl <;> revert h <;> decide

/-- Characters kept by the final filter are never whitespace. -/
theorem isAllowed_not_space {c : Char} (h : isAllowed c = true) : pyIsSpace c = false := by
  simp only [isAllowed, Bool.or_eq_true, Bool.and_eq_true, decide_eq_true_eq, beq_iff_eq] at h
  rcases h with (⟨h1, _⟩ | ⟨h1, _⟩) | rfl
  · exact pyIsSpace_eq_false_of_le (le_trans (by decide) (char_le_iff.mp h1))
  · exact pyIsSpace_eq_false_of_le (le_trans (by decide) (char_le_iff.mp h1))
  · decide

/-- Characters kept by the final filter are fixed by `pyToUpper`. -/
theorem pyToUpper_isAllowed {c : Char} (h : isAllowed c = true) : pyToUpper c = c := by
  simp only [isAllowed, Bool.or_eq_true, Bool.and_eq_true, decide_eq_true_eq, beq_iff_eq] at h
  unfold pyToUpper
  rw [if_neg]
  rintro ⟨ha, _⟩
  rcases h with (⟨_, h2⟩ | ⟨_, h2⟩) | rfl
  · exact absurd (le_trans ha h2) (by decide)
  · exact absurd (le_trans ha h2) (by decide)
  · exact absurd ha (by decide)

theorem dropWhile_eq_self_of {p : Char → Bool} {l : List Char}
    (h : ∀ c ∈ l, p c = false) : l.dropWhile p = l := by
  cases l with
  | nil => rfl
  | cons c cs =>
    exact List.dropWhile_cons_of_neg (by simp [h c (List.mem_cons_self c cs)])

/-- `collapseWs` is the identity on whitespace-free strings. -/
theorem collapseWs_of_no_space {l : List Char}
    (h : ∀ c ∈ l, pyIsSpace c = false) : collapseWs l = l := by
  induction l with
  | nil => rfl
  | cons c cs ih =>
    rw [collapseWs_cons, if_neg (by simp [h c (List.mem_cons_self c cs)]),
      ih (fun x hx => h x (List.mem_cons_of_mem c hx))]

/-- A whitespace-free prefix passes through `collapseWs` unchanged. -/
theorem collapseWs_word_append {t rest : List Char}
    (h : ∀ c ∈ t, pyIsSpace c = false) :
    collapseWs (t ++ rest) = t ++ collapseWs rest := by
  induction t with
  | nil => rfl
  | cons c t ih =>
    rw [List.cons_append, collapseWs_cons,
      if_neg (by simp [h c (List.mem_cons_self c t)]),
      ih (fun x hx => h x (List.mem_cons_of_mem c hx)), List.cons_append]

theorem splitWs_dropWhile (l : List Char) :
    splitWs (l.dropWhile pyIsSpace) = splitWs l := by
  induction l with
  | nil => rfl
  | cons c cs ih =>
    cases h : pyIsSpace c with
    | true => rw [List.dropWhile_cons_of_pos h, ih]; simp [splitWs, h]
    | false => rw [List.dropWhile_cons_of_neg (by simp [h])]

/-- Whether the string ends in whitespace (so that the regex substitution
emits a trailing hyphen that word-joining would not produce). -/
def wsAtEnd (l : List Char) : Bool :=
  match l.getLast? with
  | some c => pyIsSpace c
  | none => false

theorem intercalate_cons_of_ne_nil {sep a : List Char} {S : List (List Char)}
    (h : S ≠ []) :
    List.intercalate sep (a :: S) = a ++ sep ++ List.intercalate sep S := by
  cases S with
  | nil => exact absurd rfl h
  | cons b S' => simp [List.intercalate, List.intersperse_cons₂, List.append_assoc]

/-- On a string with no leading whitespace, the regex substitution
`collapseWs` agrees with joining the whitespace-separated words with
single hyphens, up to one trailing hyphen when the string ends in
whitespace. -/
theorem collapseWs_eq_intercalate_aux :
    ∀ (n : Nat) (l : List Char), l.length ≤ n →
      (∀ c, l.head? = some c → pyIsSpace c = false) →
      collapseWs l =
        List.intercalate ['-'] (splitWs l) ++ (if wsAtEnd l then ['-'] else []) := by
  intro n
  induction n with
  | zero =>
    intro l hl _
    rw [List.length_eq_zero.mp (Nat.le_zero.mp hl)]
    simp [collapseWs, collapseWsAux, splitWs, wsAtEnd, List.intercalate]
  | succ n ih =>
    intro l hl hhead
    cases l with
    | nil => simp [collapseWs, collapseWsAux, splitWs, wsAtEnd, List.intercalate]
    | cons c cs =>
      have hc : pyIsSpace c = false := hhead c rfl
      have hcs : cs.takeWhile (fun d => !pyIsSpace d) ++ cs.dropWhile (fun d => !pyIsSpace d) = cs :=
        List.takeWhile_append_dropWhile _ _
      set t := cs.takeWhile (fun d => !pyIsSpace d) with ht
      set d := cs.dropWhile (fun d => !pyIsSpace d) with hd
      have hword : ∀ x ∈ c :: t, pyIsSpace x = false := by
        intro x hx
        rcases List.mem_cons.mp hx with rfl | hx
        · exact hc
        · have := List.mem_takeWhile_imp hx
          simpa using this
      have hsplit : splitWs (c :: cs) = (c :: t) :: splitWs d := by
        simp [splitWs, hc, ht, hd]
      have hcol : collapseWs (c :: cs) = (c :: t) ++ collapseWs d := by
        conv_lhs => rw [← hcs]
        exact collapseWs_word_append hword
      have hlen : d.length ≤ cs.length := List.Sublist.length_le (List.dropWhile_sublist _)
      cases hdd : d with
      | nil =>
        rw [hcol, hsplit, hdd]
        have hlast : wsAtEnd (c :: cs) = false := by
          unfold wsAtEnd
          cases hg : (c :: cs).getLast? with
          | none => rfl
          | some y =>
            have hy : y ∈ c :: cs := List.mem_of_getLast?_eq_some hg
            have : c :: cs = c :: t := by rw [← hcs, hdd, List.append_nil]
            rw [this] at hy
            exact hword y hy
        rw [hlast]
        simp [List.intercalate, collapseWs, collapseWsAux, splitWs]
      | cons w d' =>
        have hw : pyIsSpace w = true := by
          have := List.head?_dropWhile_not (fun d => !pyIsSpace d) cs
          rw [← hd, hdd] at this
          simpa using this
        set e := d'.dropWhile pyIsSpace with he
        have hcold : collapseWs d = '-' :: collapseWs e := by
          rw [hdd, collapseWs_cons, if_pos hw, he]
        have hsplitd : splitWs d = splitWs e := by
          rw [hdd]
          have h1 : splitWs (w :: d') = splitWs d' := by simp [splitWs, hw]
          rw [h1, he, splitWs_dropWhile]
        have hd' : d'.takeWhile pyIsSpace ++ e = d' := by
          rw [he]; exact List.takeWhile_append_dropWhile _ _
        cases hee : e with
        | nil =>
          -- everything after the first word is whitespace
          have hallws : ∀ x ∈ w :: d', pyIsSpace x = true := by
            intro x hx
            rcases List.mem_cons.mp hx with rfl | hx
            · exact hw
            · have : d'.dropWhile pyIsSpace = [] := by rw [← he, hee]
              exact List.dropWhile_eq_nil_iff.mp this x hx
          have hlast : wsAtEnd (c :: cs) = true := by
            unfold wsAtEnd
            have hgl : (c :: cs).getLast? = (w :: d').getLast? := by
              conv_lhs => rw [← hcs, hdd]
              rw [← List.cons_append]
              rw [List.getLast?_append]
              cases hg : (w :: d').getLast? with
              | none => exact absurd (List.getLast?_eq_none_iff.mp hg) (by simp)
              | some y => rfl
            rw [hgl]
            cases hg : (w :: d').getLast? with
            | none => exact absurd (List.getLast?_eq_none_iff.mp hg) (by simp)
            | some y => exact hallws y (List.mem_of_getLast?_eq_some hg)
          rw [hcol, hsplit, hcold, hee, hsplitd, hee, hlast]
          simp [List.intercalate, collapseWs, collapseWsAux, splitWs]
        | cons x e' =>
          have hx : pyIsSpace x = false := by
            have := List.head?_dropWhile_not pyIsSpace d'
            rw [← he, hee] at this
            simpa using this
          have hlen2 : e.length ≤ n := by
            have h1 : e.length ≤ d'.length := by
              rw [he]; exact List.Sublist.length_le (List.dropWhile_sublist _)
            have h2 : (c :: cs).length ≤ n + 1 := hl
            have h3 : d.length = d'.length + 1 := by rw [hdd]; rfl
            simp only [List.length_cons] at h2
            omega
          have ihe := ih e hlen2 (by
            intro c0 hc0
            rw [hee] at hc0
            simp only [List.head?_cons, Option.some.injEq] at hc0
            rw [← hc0]
            exact hx)
          have hse : splitWs e ≠ [] := by
            rw [hee]
            simp [splitWs, hx]
          have hlast : wsAtEnd (c :: cs) = wsAtEnd e := by
            unfold wsAtEnd
            have hgl : (c :: cs).getLast? = e.getLast? := by
              conv_lhs => rw [← hcs, hdd, ← hd']
              rw [← List.cons_append, List.getLast?_append]
              have : (w :: (d'.takeWhile pyIsSpace ++ e)) = (w :: d'.takeWhile pyIsSpace) ++ e := by
                simp
              rw [this, List.getLast?_append]
              cases hg : e.getLast? with
              | none => exact absurd (List.getLast?_eq_none_iff.mp hg) (by rw [hee]; simp)
              | some y => rfl
            rw [hgl]
          rw [hcol, hsplit, hcold, hsplitd, ihe, hlast,
            intercalate_cons_of_ne_nil hse]
          simp [List.append_assoc]

/-- `pyToUpper` never turns a character into whitespace or back. -/
theorem pyIsSpace_pyToUpper (c : Char) : pyIsSpace (pyToUpper c) = pyIsSpace c := by
  unfold pyToUpper
  split
  · rename_i h
    obtain ⟨h1, h2⟩ := h
    have h1' : 97 ≤ c.toNat := char_le_iff.mp h1
    have h2' : c.toNat ≤ 122 := char_le_iff.mp h2
    have hv : (c.toNat - 32).isValidChar := Or.inl (by omega)
    rw [pyIsSpace_eq_false_of_le (c := Char.ofNat (c.toNat - 32))
      (by rw [char_toNat_ofNat hv]; omega)]
    rw [pyIsSpace_eq_false_of_le (by omega)]
  · rfl

/-- The result of `pyStrip` never starts with whitespace. -/
theorem pyStrip_head_not_space {s : List Char} {c : Char}
    (h : (pyStrip s).head? = some c) : pyIsSpace c = false := by
  unfold pyStrip at h
  have ha : s.dropWhile pyIsSpace =
      ((s.dropWhile pyIsSpace).reverse.dropWhile pyIsSpace).reverse ++
        ((s.dropWhile pyIsSpace).reverse.takeWhile pyIsSpace).reverse := by
    conv_lhs =>
      rw [← List.reverse_reverse (s.dropWhile pyIsSpace),
        ← List.takeWhile_append_dropWhile pyIsSpace (s.dropWhile pyIsSpace).reverse]
    rw [List.reverse_append]
  have hh : (s.dropWhile pyIsSpace).head? = some c := by
    rw [ha, List.head?_append, h]; rfl
  have hw := List.head?_dropWhile_not pyIsSpace s
  rw [hh] at hw
  exact hw

/-- The result of `pyStrip` never ends with whitespace. -/
theorem pyStrip_getLast_not_space {s : List Char} {c : Char}
    (h : (pyStrip s).getLast? = some c) : pyIsSpace c = false := by
  unfold pyStrip at h
  rw [List.getLast?_reverse] at h
  have hw := List.head?_dropWhile_not pyIsSpace (s.dropWhile pyIsSpace).reverse
  rw [h] at hw
  exact hw

/-- On the trimmed, upper-cased plate text, the regex substitution is
exactly word-joining with single hyphens. -/
theorem collapseWs_strip_eq (s : List Char) :
    collapseWs ((pyStrip s).map pyToUpper) =
      List.intercalate ['-'] (splitWs ((pyStrip s).map pyToUpper)) := by
  have hhead : ∀ c, ((pyStrip s).map pyToUpper).head? = some c → pyIsSpace c = false := by
    intro c hc
    rw [List.head?_map] at hc
    cases hc0 : (pyStrip s).head? with
    | none => rw [hc0] at hc; exact absurd hc (by simp)
    | some c0 =>
      rw [hc0] at hc
      simp only [Option.map_some', Option.some.injEq] at hc
      rw [← hc, pyIsSpace_pyToUpper]
      exact pyStrip_head_not_space hc0
  have htrail : wsAtEnd ((pyStrip s).map pyToUpper) = false := by
    unfold wsAtEnd
    rw [List.getLast?_map]
    cases hc0 : (pyStrip s).getLast? with
    | none => rfl
    | some c0 =>
      simp only [Option.map_some']
      rw [pyIsSpace_pyToUpper]
      exact pyStrip_getLast_not_space hc0
  have h := collapseWs_eq_intercalate_aux ((pyStrip s).map pyToUpper).length
    ((pyStrip s).map pyToUpper) le_rfl hhead
  rw [htrail] at h
  simpa using h

/-- C7: for every input string, `normalize` equals the spec's pipeline —
trim surrounding whitespace, upper-case, replace each maximal run of
whitespace with a single hyphen, delete every character that is not an
uppercase ASCII letter, a digit, or a hyphen; and in particular
`normalize("  ab cd!!") = "AB-CD"`. -/
theorem normalize_plate_matches_spec :
    (∀ s : List Char, normalize_plate s = specNormalize s) ∧
    normalize_plate "  ab cd!!".toList = "AB-CD".toList := by
  constructor
  · intro s
    unfold normalize_plate specNormalize
    rw [collapseWs_strip_eq]
  · decide

/-- C8: `normalize` is idempotent — its output contains only characters
in `[A-Z0-9-]`, on which each of its four stages acts as the identity. -/
theorem normalize_plate_idem :
    ∀ p : List Char, normalize_plate (normalize_plate p) = normalize_plate p := by
  intro p
  set out := normalize_plate p with hout
  have hall : ∀ c ∈ out, isAllowed c = true := by
    intro c hc
    rw [hout] at hc
    unfold normalize_plate at hc
    exact (List.mem_filter.mp hc).2
  have hnws : ∀ c ∈ out, pyIsSpace c = false :=
    fun c hc => isAllowed_not_space (hall c hc)
  have hstrip : pyStrip out = out := by
    unfold pyStrip
    rw [dropWhile_eq_self_of hnws,
      dropWhile_eq_self_of (fun c hc => hnws c (List.mem_reverse.mp hc)),
      List.reverse_reverse]
  have hmap : out.map pyToUpper = out := by
    rw [List.map_congr_left (fun a ha => pyToUpper_isAllowed (hall a ha)), List.map_id']
  conv_lhs => rw [normalize_plate, hstrip, hmap, collapseWs_of_no_space hnws,
    List.filter_eq_self.mpr hall]

/-! ### Lifecycle and access-control claims -/

theorem require_api_key_ok {key : String} (hk : key ≠ "") :
    require_api_key key (some key) = .ok () := by
  simp [require_api_key, hk]

/-- C2: with a configured key and an authorized caller, `update` on any
out-of-range status fails with the Validation error and leaves the table
unchanged, for every token (existing or not) — the range check precedes
the existence check, so the result is Validation, not Not-found. -/
theorem update_out_of_range_validation (key : String) (db : List Rdv)
    (token : String) (s : Int) (now : Nat) (hk : key ≠ "")
    (hs : s < 0 ∨ s > 3) :
    update_rdv key (some key) db token s now = (db, .error validationError) ∧
    validationError ≠ notFoundError := by
  refine ⟨?_, by decide⟩
  simp [update_rdv, require_api_key, hk, hs]

theorem update_out_of_range_validation_witness :
    update_rdv "k" (some "k") [] "t" 7 0 = ([], .error validationError) ∧
    validationError ≠ notFoundError :=
  update_out_of_range_validation "k" [] "t" 7 0 (by decide) (Or.inr (by decide))

/-- C6: for each technician endpoint (create, update, close, list), a
missing server-side key yields the configuration error and a configured
key with a non-matching credential yields the authorization error; the
two errors are distinct and the table is unchanged in both cases. -/
theorem tech_gate_config_and_auth (key : String) (x : Option String)
    (db : List Rdv) (plate : List Char) (tok token : String) (s : Int)
    (now : Nat) :
    (key = "" →
      create_rdv key x db plate tok now = (db, .error configError) ∧
      update_rdv key x db token s now = (db, .error configError) ∧
      close_rdv key x db token now = (db, .error configError) ∧
      list_rdv key x db = .error configError) ∧
    (key ≠ "" → x ≠ some key →
      create_rdv key x db plate tok now = (db, .error unauthorizedError) ∧
      update_rdv key x db token s now = (db, .error unauthorizedError) ∧
      close_rdv key x db token now = (db, .error unauthorizedError) ∧
      list_rdv key x db = .error unauthorizedError) ∧
    configError ≠ unauthorizedError := by
  refine ⟨?_, ?_, by decide⟩
  · intro hk
    refine ⟨?_, ?_, ?_, ?_⟩ <;>
      simp [create_rdv, update_rdv, close_rdv, list_rdv, require_api_key, hk]
  · intro hk hx
    refine ⟨?_, ?_, ?_, ?_⟩ <;>
      simp [create_rdv, update_rdv, close_rdv, list_rdv, require_api_key, hk, hx]

theorem tech_gate_config_and_auth_witness :
    update_rdv "" none [] "t" 0 0 = ([], .error configError) ∧
    update_rdv "k" (some "bad") [] "t" 0 0 = ([], .error unauthorizedError) :=
  ⟨((tech_gate_config_and_auth "" none [] [] "t" "t" 0 0).1 rfl).2.1,
   ((tech_gate_config_and_auth "k" (some "bad") [] [] "t" "t" 0 0).2.1
      (by decide) (by simp)).2.1⟩

/-- C10: with a configured key, an absent `X-API-Key` header (`none`) is
rejected with the same 401 Unauthorized error as any present-but-wrong
credential; it is neither a validation nor a configuration failure. -/
theorem missing_header_unauthorized (key : String) (db : List Rdv)
    (token : String) (s : Int) (now : Nat) (hk : key ≠ "") :
    require_api_key key none = .error unauthorizedError ∧
    (∀ w : String, w ≠ key → require_api_key key (some w) = .error unauthorizedError) ∧
    update_rdv key none db token s now = (db, .error unauthorizedError) := by
  refine ⟨?_, ?_, ?_⟩
  · simp [require_api_key, hk]
  · intro w hw
    simp [require_api_key, hk, hw]
  · simp [update_rdv, require_api_key, hk]

theorem missing_header_unauthorized_witness :
    require_api_key "k" none = .error unauthorizedError ∧
    update_rdv "k" none [] "t" 0 0 = ([], .error unauthorizedError) :=
  ⟨(missing_header_unauthorized "k" [] "t" 0 0 (by decide)).1,
   (missing_header_unauthorized "k" [] "t" 0 0 (by decide)).2.2⟩

/-- C4: the public read returns the `{token, plate, status, updated_at}`
projection exactly when an open record with that token exists; an absent
token and a closed record produce the identical Not-found error, so a
caller cannot tell closure from non-existence. -/
theorem get_status_privacy (db : List Rdv) (token : String) :
    (∀ r, findRdv db token = some r → r.is_closed = false →
      get_status db token = .ok ⟨token, r.plate, r.status, r.updated_at⟩) ∧
    (findRdv db token = none → get_status db token = .error notFoundError) ∧
    (∀ r, findRdv db token = some r → r.is_closed = true →
      get_status db token = .error notFoundError) := by
  refine ⟨?_, ?_, ?_⟩
  · intro r hr hopen
    simp [get_status, hr, hopen]
  · intro h
    simp [get_status, h]
  · intro r hr hcl
    simp [get_status, hr, hcl]

theorem get_status_privacy_witness :
    get_status [⟨"t", ['A'], 1, false, 0, 5⟩] "t" = .ok ⟨"t", ['A'], 1, 5⟩ ∧
    get_status [⟨"t", ['A'], 1, true, 0, 5⟩] "t" = .error notFoundError ∧
    get_status [] "t" = .error notFoundError :=
  ⟨(get_status_privacy [⟨"t", ['A'], 1, false, 0, 5⟩] "t").1
      ⟨"t", ['A'], 1, false, 0, 5⟩ (by decide) rfl,
   (get_status_privacy [⟨"t", ['A'], 1, true, 0, 5⟩] "t").2.2
      ⟨"t", ['A'], 1, true, 0, 5⟩ (by decide) rfl,
   (get_status_privacy [] "t").2.1 rfl⟩

/-- C1 counterexample: on a closed record, `update` with the
out-of-range status 4 fails with the Validation error, not the Conflict
error — the range check precedes the closed check, so "fails with
Conflict regardless of the `new_status` value, including values outside
`[0,3]`" is false. -/
theorem update_closed_out_of_range_not_conflict :
    (update_rdv "k" (some "k") [⟨"t", ['A'], 1, true, 0, 0⟩] "t" 4 9).2 =
      .error validationError ∧
    validationError ≠ conflictError := by
  exact ⟨rfl, by decide⟩

/-- C1 (amended): with an authorized caller, for every closed record and
every `new_status` in `[0,3]`, `update` fails with the Conflict error
(distinct from Not-found and Validation) and the table is unchanged. -/
theorem update_closed_conflict (key : String) (db : List Rdv)
    (token : String) (s : Int) (now : Nat) (hk : key ≠ "") (r : Rdv)
    (hr : findRdv db token = some r) (hcl : r.is_closed = true)
    (h0 : 0 ≤ s) (h3 : s ≤ 3) :
    update_rdv key (some key) db token s now = (db, .error conflictError) ∧
    conflictError ≠ notFoundError ∧ conflictError ≠ validationError := by
  refine ⟨?_, by decide, by decide⟩
  have hrange : ¬(s < 0 ∨ s > 3) := by omega
  simp [update_rdv, require_api_key, hk, hrange, hr, hcl]

theorem update_closed_conflict_witness :
    update_rdv "k" (some "k") [⟨"t", ['A'], 1, true, 0, 0⟩] "t" 2 9 =
      ([⟨"t", ['A'], 1, true, 0, 0⟩], .error conflictError) ∧
    conflictError ≠ notFoundError ∧ conflictError ≠ validationError :=
  update_closed_conflict "k" [⟨"t", ['A'], 1, true, 0, 0⟩] "t" 2 9 (by decide)
    ⟨"t", ['A'], 1, true, 0, 0⟩ (by decide) rfl (by decide) (by decide)

/-- C9: with an authorized caller, for every open record and every
`new_status` in `[0,3]` — with no constraint relative to the current
status — `update` succeeds, sets the status to exactly `new_status`, and
stamps `updated_at` with the time of the call. -/
theorem update_open_in_range (key : String) (db : List Rdv)
    (token : String) (s : Int) (now : Nat) (hk : key ≠ "") (r : Rdv)
    (hr : findRdv db token = some r) (hopen : r.is_closed = false)
    (h0 : 0 ≤ s) (h3 : s ≤ 3) :
    (update_rdv key (some key) db token s now).2 = .ok ⟨true, token, s, now⟩ ∧
    ∀ r2 ∈ (update_rdv key (some key) db token s now).1, r2.token = token →
      r2.status = s ∧ r2.updated_at = now := by
  have hrange : ¬(s < 0 ∨ s > 3) := by omega
  have hred : update_rdv key (some key) db token s now =
      (db.map (fun s0 => if s0.token == token then { s0 with status := s, updated_at := now } else s0),
       .ok ⟨true, token, s, now⟩) := by
    simp [update_rdv, require_api_key, hk, hrange, hr, hopen]
  rw [hred]
  refine ⟨rfl, ?_⟩
  intro r2 hmem htok
  rcases List.mem_map.mp hmem with ⟨s0, hs0, rfl⟩
  by_cases h : s0.token = token
  · simp [h]
  · have hb : (s0.token == token) = false := beq_eq_false_iff_ne.mpr h
    rw [hb] at htok ⊢
    simp only [if_neg Bool.false_ne_true] at htok
    exact absurd htok h

theorem update_open_in_range_witness :
    (update_rdv "k" (some "k") [⟨"t", ['A'], 2, false, 0, 0⟩] "t" 1 9).2 =
      .ok ⟨true, "t", 1, 9⟩ :=
  (update_open_in_range "k" [⟨"t", ['A'], 2, false, 0, 0⟩] "t" 1 9 (by decide)
    ⟨"t", ['A'], 2, false, 0, 0⟩ (by decide) rfl (by decide) (by decide)).1

theorem filter_token_length_zero_iff (l : List Rdv) (token : String) :
    (l.filter (fun s0 => s0.token == token)).length = 0 ↔
      ∀ r ∈ l, r.token ≠ token := by
  rw [List.length_eq_zero, List.filter_eq_nil_iff]
  simp

theorem close_rdv_hit {key : String} {db : List Rdv} {token : String}
    (now : Nat) (hk : key ≠ "")
    (hch : ¬(db.filter (fun s0 => s0.token == token)).length = 0) :
    close_rdv key (some key) db token now =
      (db.map (fun s0 => if s0.token == token then { s0 with is_closed := true, updated_at := now } else s0),
       .ok ⟨true, token, now⟩) := by
  simp [close_rdv, require_api_key, hk, hch]

/-- C3: with an authorized caller, `close` fails with Not-found exactly
when no record with the token exists; on any existing record — open or
already closed — it succeeds, marks the record closed, and stamps
`updated_at` with the time of the call; a second `close` on the same
token succeeds again, stamping the (later) second time. -/
theorem close_spec (key : String) (db : List Rdv) (token : String)
    (now now2 : Nat) (hk : key ≠ "") :
    ((close_rdv key (some key) db token now).2 = .error notFoundError ↔
      ∀ r ∈ db, r.token ≠ token) ∧
    ((∃ r ∈ db, r.token = token) →
      (close_rdv key (some key) db token now).2 = .ok ⟨true, token, now⟩ ∧
      (∀ r2 ∈ (close_rdv key (some key) db token now).1, r2.token = token →
        r2.is_closed = true ∧ r2.updated_at = now) ∧
      (close_rdv key (some key) ((close_rdv key (some key) db token now).1)
        token now2).2 = .ok ⟨true, token, now2⟩) := by
  constructor
  · by_cases hch : (db.filter (fun s0 => s0.token == token)).length = 0
    · refine ⟨fun _ => (filter_token_length_zero_iff db token).mp hch, fun _ => ?_⟩
      simp [close_rdv, require_api_key, hk, hch]
    · refine ⟨fun h2 => ?_, fun hall =>
        absurd ((filter_token_length_zero_iff db token).mpr hall) hch⟩
      simp [close_rdv, require_api_key, hk, hch, notFoundError] at h2
  · rintro ⟨r0, hr0, htok0⟩
    have hch : ¬(db.filter (fun s0 => s0.token == token)).length = 0 := by
      intro h
      exact absurd htok0 ((filter_token_length_zero_iff db token).mp h r0 hr0)
    have hred := close_rdv_hit now hk hch
    refine ⟨by rw [hred], ?_, ?_⟩
    · intro r2 hmem htok
      rw [hred] at hmem
      rcases List.mem_map.mp hmem with ⟨s0, hs0, rfl⟩
      by_cases h : s0.token = token
      · simp [h]
      · have hb : (s0.token == token) = false := beq_eq_false_iff_ne.mpr h
        rw [hb] at htok
        simp only [if_neg Bool.false_ne_true] at htok
        exact absurd htok h
    · have hmem1 : ∃ r2 ∈ (close_rdv key (some key) db token now).1,
          r2.token = token := by
        rw [hred]
        refine ⟨if r0.token == token then { r0 with is_closed := true, updated_at := now } else r0,
          List.mem_map_of_mem _ hr0, ?_⟩
        simp [htok0]
      have hch1 : ¬(((close_rdv key (some key) db token now).1.filter
          (fun s0 => s0.token == token)).length = 0) := by
        intro h
        rcases hmem1 with ⟨r2, hr2, ht2⟩
        exact absurd ht2
          ((filter_token_length_zero_iff _ token).mp h r2 hr2)
      rw [close_rdv_hit now2 hk hch1]

theorem close_spec_witness :
    (close_rdv "k" (some "k") [⟨"t", ['A'], 1, false, 0, 0⟩] "t" 5).2 =
      .ok ⟨true, "t", 5⟩ ∧
    (close_rdv "k" (some "k")
      ((close_rdv "k" (some "k") [⟨"t", ['A'], 1, false, 0, 0⟩] "t" 5).1)
      "t" 7).2 = .ok ⟨true, "t", 7⟩ := by
  have h := (close_spec "k" [⟨"t", ['A'], 1, false, 0, 0⟩] "t" 5 7 (by decide)).2
    ⟨⟨"t", ['A'], 1, false, 0, 0⟩, List.mem_cons_self _ _, rfl⟩
  exact ⟨h.1, h.2.2⟩

theorem close_rdv_fst {key : String} {db : List Rdv} {tok : String}
    {now : Nat} (hk : key ≠ "") :
    (close_rdv key (some key) db tok now).1 =
      db.map (fun s0 => if s0.token == tok then { s0 with is_closed := true, updated_at := now } else s0) := by
  by_cases hch : (db.filter (fun s0 => s0.token == tok)).length = 0
  · simp [close_rdv, require_api_key, hk, hch]
  · rw [close_rdv_hit now hk hch]

theorem list_rdv_ok {key : String} {db : List Rdv} (hk : key ≠ "") :
    list_rdv key (some key) db =
      .ok (((db.filter (fun r => !r.is_closed)).mergeSort
          (fun a b => decide (b.updated_at ≤ a.updated_at))).map
        (fun r => ⟨r.token, r.plate, r.status, r.created_at, r.updated_at⟩)) := by
  simp [list_rdv, require_api_key, hk]

/-- C5: with an authorized caller, `list` returns exactly the records
whose `is_closed` flag is false (as a permutation of the open rows'
projections), ordered by `updated_at` descending; after a `close` on a
token, that token never appears in a subsequent listing. -/
theorem list_spec (key : String) (db : List Rdv) (hk : key ≠ "") :
    ∃ items : List ListItem,
      list_rdv key (some key) db = .ok items ∧
      items.Perm ((db.filter (fun r => !r.is_closed)).map
        (fun r => ⟨r.token, r.plate, r.status, r.created_at, r.updated_at⟩)) ∧
      items.Pairwise (fun a b => b.updated_at ≤ a.updated_at) ∧
      (∀ tok (now : Nat) (items2 : List ListItem),
        list_rdv key (some key) ((close_rdv key (some key) db tok now).1) = .ok items2 →
        ∀ it ∈ items2, it.token ≠ tok) := by
  refine ⟨_, list_rdv_ok hk, ?_, ?_, ?_⟩
  · exact (List.mergeSort_perm _ _).map _
  · have hs : ((db.filter (fun r => !r.is_closed)).mergeSort
        (fun a b => decide (b.updated_at ≤ a.updated_at))).Pairwise
        (fun a b => decide (b.updated_at ≤ a.updated_at)) :=
      List.sorted_mergeSort
        (fun a b c hab hbc => by
          simp only [decide_eq_true_eq] at hab hbc ⊢
          omega)
        (fun a b => by
          by_cases h : b.updated_at ≤ a.updated_at
          · simp [h]
          · have h2 : a.updated_at ≤ b.updated_at := by omega
            simp [h2])
        (db.filter (fun r => !r.is_closed))
    rw [List.pairwise_map]
    exact hs.imp (fun h => of_decide_eq_true h)
  · intro tok now items2 hlist it hit
    rw [close_rdv_fst hk, list_rdv_ok hk] at hlist
    obtain rfl := (Except.ok.inj hlist).symm
    rcases List.mem_map.mp hit with ⟨r, hr, rfl⟩
    rw [List.mem_mergeSort] at hr
    obtain ⟨hr1, hr2⟩ := List.mem_filter.mp hr
    rcases List.mem_map.mp hr1 with ⟨s0, hs0, rfl⟩
    by_cases h : s0.token = tok
    · exfalso
      simp [h] at hr2
    · have hb : (s0.token == tok) = false := beq_eq_false_iff_ne.mpr h
      simp only [hb, if_neg Bool.false_ne_true]
      exact h

theorem list_spec_witness :
    list_rdv "k" (some "k") [⟨"t", ['A'], 1, false, 0, 0⟩] =
      .ok [⟨"t", ['A'], 1, 0, 0⟩] := by
  obtain ⟨items, h1, h2, h3, h4⟩ :=
    list_spec "k" [⟨"t", ['A'], 1, false, 0, 0⟩] (by decide)
  have hmap : (([⟨"t", ['A'], 1, false, 0, 0⟩] : List Rdv).filter
      (fun r => !r.is_closed)).map
      (fun r => (⟨r.token, r.plate, r.status, r.created_at, r.updated_at⟩ : ListItem)) =
      [⟨"t", ['A'], 1, 0, 0⟩] := rfl
  rw [hmap, List.perm_singleton] at h2
  rw [h2] at h1
  exact h1
